import Mathlib

/-!
Verification of the file-based blogging system's storage accessor
(src/utils/fileHandler.js) against its specification.

The JavaScript module is shallowly embedded: the storage directory becomes an
explicit value threaded through the operations, timestamps become naturals,
and the random sources of the uuid library become explicit parameters.
JavaScript string primitives are modelled on `List Char` so that every
definition evaluates inside the kernel.
-/

/-! ## Models of the JavaScript string primitives used by fileHandler.js -/

/-- Model of String.prototype.toLowerCase (the code only ever lowercases
ASCII-ish text). -/
def jsToLower (s : String) : String :=
  String.mk (s.data.map Char.toLower)

/-- Strip whitespace from both ends of a character list. -/
def trimList (l : List Char) : List Char :=
  ((l.dropWhile Char.isWhitespace).reverse.dropWhile Char.isWhitespace).reverse

/-- Model of String.prototype.trim. -/
def jsTrim (s : String) : String :=
  String.mk (trimList s.data)

/-- Model of String.prototype.includes: contiguous substring test. -/
def includesList (pat : List Char) : List Char → Bool
  | [] => pat.isEmpty
  | c :: rest => pat.isPrefixOf (c :: rest) || includesList pat rest

/-- `s.includes(pat)` in JavaScript. -/
def jsIncludes (s pat : String) : Bool :=
  includesList pat.data s.data

/-- Model of String.prototype.split with a single-character separator:
splits on every occurrence, keeping empty pieces. -/
def splitList (sep : Char) : List Char → List (List Char)
  | [] => [[]]
  | c :: rest =>
    let groups := splitList sep rest
    if c = sep then [] :: groups
    else
      match groups with
      | [] => [[c]]
      | g :: gs => (c :: g) :: gs

/-- `s.split(sep)` in JavaScript (single-character separator). -/
def jsSplit (s : String) (sep : Char) : List String :=
  (splitList sep s.data).map String.mk

/-- Model of String.prototype.endsWith. -/
def jsEndsWith (s pat : String) : Bool :=
  pat.data.reverse.isPrefixOf s.data.reverse

/-- Remove the first occurrence of `pat` from the list (no-op when absent). -/
def removeFirstList (pat : List Char) : List Char → List Char
  | [] => []
  | c :: rest =>
    if pat.isPrefixOf (c :: rest) then (c :: rest).drop pat.length
    else c :: removeFirstList pat rest

/-- Model of String.prototype.replace with a plain-string pattern and the empty
replacement, the only form the code uses (`filename.replace(".json", "")`):
removes the first occurrence of the pattern. -/
def jsReplaceFirst (s pat : String) : String :=
  String.mk (removeFirstList pat.data s.data)

/-- Model of String.prototype.substring(0, n). -/
def jsSubstringTo (s : String) (n : Nat) : String :=
  String.mk (s.data.take n)

/-! ## Models of the external libraries (uuid, slugify)

These libraries are dependencies of the repository whose sources are not part
of it; they are modelled from their documented behavior, with the random
source made explicit. -/

/-- The sixteen lowercase hexadecimal digit characters. -/
def hexCharList : List Char := "0123456789abcdef".data

/-- The hexadecimal digit character for `n % 16`. -/
def hexChar (n : Nat) : Char := hexCharList.getD (n % 16) '0'

/-- The `k` hexadecimal digits of `r`, most significant first. -/
def hexDigits : Nat → Nat → List Char
  | 0, _ => []
  | k + 1, r => hexChar (r / 16 ^ k) :: hexDigits k r

/-- Modelled from the spec: the uuid library's `uuidv4()` generator, missing
from src/. It produces 32 hexadecimal digits in 8-4-4-4-12 groups separated by
dashes; the 128-bit random source is the explicit parameter `r`. -/
def uuidv4 (r : Nat) : String :=
  let ds := hexDigits 32 r
  String.mk (ds.take 8 ++ '-' :: (ds.drop 8).take 4 ++ '-' :: (ds.drop 12).take 4
    ++ '-' :: (ds.drop 16).take 4 ++ '-' :: ds.drop 20)

/-- Collapse whitespace runs to single hyphens; the flag records whether the
previous character was whitespace. -/
def collapseWsAux : List Char → Bool → List Char
  | [], _ => []
  | c :: rest, prevWs =>
    if c.isWhitespace then
      if prevWs then collapseWsAux rest true
      else '-' :: collapseWsAux rest true
    else c :: collapseWsAux rest false

/-- Modelled from the spec: the slugify library with the `lower` and `strict`
options, missing from src/ ("a lowercase, hyphen-separated, URL-safe
transformation of a title string"): keep only alphanumerics and whitespace,
trim, replace whitespace runs with single hyphens, lowercase. Lowercasing is
applied first here, which agrees with applying it last because lowercasing
preserves the alphanumeric and whitespace character classes. -/
def slugify (s : String) : String :=
  let lowered := s.data.map Char.toLower
  let kept := lowered.filter (fun c => c.isAlphanum || c.isWhitespace)
  String.mk (collapseWsAux (trimList kept) false)

/-! ## Data model -/

/-- The JSON object persisted inside one post file: fields id, title, content,
author, tags, createdAt, updatedAt. The filename is NOT stored in the file.
Timestamps are naturals standing for the ISO timestamps, which compare the
same way. -/
structure StoredPost where
  id : String
  title : String
  content : String
  author : String
  tags : List String
  createdAt : Nat
  updatedAt : Nat
deriving Repr, DecidableEq

/-- A post as handed back to callers: the stored fields plus the `filename`
handle reattached from the file's name at read time. -/
structure Post where
  id : String
  title : String
  content : String
  author : String
  tags : List String
  createdAt : Nat
  updatedAt : Nat
  filename : String
deriving Repr, DecidableEq

/-- Attach a filename handle to a stored post (`post.filename = ...` in the
code). -/
def attachFilename (p : StoredPost) (fn : String) : Post :=
  ⟨p.id, p.title, p.content, p.author, p.tags, p.createdAt, p.updatedAt, fn⟩

/-- What reading and JSON.parsing one file yields: a well-formed stored post,
or a failure (unreadable file or malformed JSON — the code never distinguishes
the two). -/
inductive FileData where
  | good : StoredPost → FileData
  | bad : FileData
deriving Repr, DecidableEq

/-- One directory entry as returned by fs.readdir: the file's name (with
extension) and what reading it yields. -/
structure DirEntry where
  name : String
  data : FileData
deriving Repr, DecidableEq

/-- The storage directory: `none` models a missing/unreadable directory
(fs.readdir or any access beneath it throws). -/
abbrev BlogDir := Option (List DirEntry)

/-- Thrown JavaScript errors distinguished by the embedding: a TypeError from a
field access on undefined/null, and an I/O error from the filesystem. -/
inductive JsError where
  | typeError
  | ioError
deriving Repr, DecidableEq

/-! ## The storage accessor operations (src/utils/fileHandler.js) -/

/-- `generateFilename(title)`: slug of the title, a dash, the first eight
characters of a fresh uuid, and the `.json` extension. -/
def generateFilename (title : String) (r2 : Nat) : String :=
  slugify title ++ "-" ++ jsSubstringTo (uuidv4 r2) 8 ++ ".json"

/-- Model of fs.writeFile into an existing directory: overwrite the file of
that name if present, else create it. -/
def writeFile (files : List DirEntry) (name : String) (post : StoredPost) :
    List DirEntry :=
  if files.any (fun e => e.name == name) then
    files.map (fun e => if e.name == name then ⟨name, FileData.good post⟩ else e)
  else files ++ [⟨name, FileData.good post⟩]

/-- Read and parse one directory entry and attach its handle, as the per-file
closure of getAllPosts does (`post.filename = file.replace(".json", "")`);
`none` is the rejected promise of a failed read or parse. -/
def readEntry (e : DirEntry) : Option Post :=
  match e.data with
  | FileData.good p => some (attachFilename p (jsReplaceFirst e.name ".json"))
  | FileData.bad => none

/-- Model of Promise.all over the per-file reads: resolves with all results in
input order, or rejects as soon as any one of them rejects. -/
def promiseAll {α : Type} : List (Option α) → Option (List α)
  | [] => some []
  | none :: _ => none
  | some a :: rest => (promiseAll rest).map (fun as => a :: as)

/-- The comparator `(a, b) => new Date(b.createdAt) - new Date(a.createdAt)`
as the preorder it induces: `a` sorts no later than `b` when
`b.createdAt ≤ a.createdAt`. -/
def createdDesc (a b : Post) : Prop := b.createdAt ≤ a.createdAt

instance : DecidableRel createdDesc :=
  fun a b => Nat.decLe b.createdAt a.createdAt

instance : IsTotal Post createdDesc :=
  ⟨fun a b => Nat.le_total b.createdAt a.createdAt⟩

instance : IsTrans Post createdDesc :=
  ⟨fun _ _ _ h h' => Nat.le_trans h' h⟩

/-- `getAllPosts()`: list the directory, keep the `.json` files, read and parse
them all under one Promise.all, sort by createdAt descending, and return `[]`
from the surrounding catch if anything threw. Array.prototype.sort is stable
(ES2019), so the sort is the stable sort by the comparator's preorder, which
insertion sort computes. -/
def getAllPosts (d : BlogDir) : List Post :=
  match d with
  | none => []
  | some files =>
    match promiseAll ((files.filter (fun f => jsEndsWith f.name ".json")).map readEntry) with
    | some posts => List.insertionSort createdDesc posts
    | none => []

/-- `getPostByFilename(filename)`: read and parse `filename + ".json"`,
attach the handle, and return null (here `none`) from the catch when the read
or parse fails. -/
def getPostByFilename (d : BlogDir) (filename : String) : Option Post :=
  match d with
  | none => none
  | some files =>
    match files.find? (fun e => e.name == filename ++ ".json") with
    | some e =>
      match e.data with
      | FileData.good p => some (attachFilename p filename)
      | FileData.bad => none
    | none => none

/-- The input of createPost: the four fields destructured from postData, each
possibly absent (undefined/null). -/
structure CreateData where
  title : Option String
  content : Option String
  author : Option String
  tags : Option String
deriving Repr, DecidableEq

/-- `tags.split(",").map(tag => tag.trim()).filter(tag => tag)`. -/
def splitTags (tags : String) : List String :=
  ((jsSplit tags ',').map jsTrim).filter (fun t => t != "")

/-- `createPost(postData)`: `title.trim()` / `content.trim()` throw a TypeError
when the field is absent; author defaults to "Anonymous" and tags to `[]` when
falsy; both timestamps are the current time; the file is written (throwing an
I/O error if the directory is missing) and the post is returned with the
handle attached. -/
def createPost (d : BlogDir) (postData : CreateData) (r1 r2 now : Nat) :
    Except JsError (Post × BlogDir) :=
  match postData.title, postData.content with
  | some title, some content =>
    let post : StoredPost :=
      { id := uuidv4 r1
        title := jsTrim title
        content := jsTrim content
        author :=
          match postData.author with
          | some a => if a != "" then jsTrim a else "Anonymous"
          | none => "Anonymous"
        tags :=
          match postData.tags with
          | some t => if t != "" then splitTags t else []
          | none => []
        createdAt := now
        updatedAt := now }
    let filename := generateFilename title r2
    match d with
    | none => Except.error JsError.ioError
    | some files =>
      Except.ok (attachFilename post (jsReplaceFirst filename ".json"),
        some (writeFile files filename post))
  | _, _ => Except.error JsError.typeError

/-- The input of updatePost: the four updatable fields, each possibly absent. -/
structure UpdateData where
  title : Option String
  content : Option String
  author : Option String
  tags : Option String
deriving Repr, DecidableEq

/-- `updatePost(filename, postData)`: load the existing post (null from the
catch when the directory, the file, or the parse fails), overwrite each truthy
field (JavaScript truthiness: the empty string is falsy), always refresh
updatedAt, rewrite the file in place, and return the merged post with the
handle attached. -/
def updatePost (d : BlogDir) (filename : String) (postData : UpdateData)
    (now : Nat) : Option (Post × BlogDir) :=
  match d with
  | none => none
  | some files =>
    match files.find? (fun e => e.name == filename ++ ".json") with
    | none => none
    | some e =>
      match e.data with
      | FileData.bad => none
      | FileData.good existingPost =>
        let updatedPost : StoredPost :=
          { id := existingPost.id
            title :=
              match postData.title with
              | some t => if t != "" then jsTrim t else existingPost.title
              | none => existingPost.title
            content :=
              match postData.content with
              | some t => if t != "" then jsTrim t else existingPost.content
              | none => existingPost.content
            author :=
              match postData.author with
              | some t => if t != "" then jsTrim t else existingPost.author
              | none => existingPost.author
            tags :=
              match postData.tags with
              | some t => if t != "" then splitTags t else existingPost.tags
              | none => existingPost.tags
            createdAt := existingPost.createdAt
            updatedAt := now }
        some (attachFilename updatedPost filename,
          some (writeFile files (filename ++ ".json") updatedPost))

/-- `deletePost(filename)`: fs.unlink the file, returning true on success and
false from the catch when the directory or the file is missing. -/
def deletePost (d : BlogDir) (filename : String) : Bool × BlogDir :=
  match d with
  | none => (false, none)
  | some files =>
    if files.any (fun e => e.name == filename ++ ".json") then
      (true, some (files.filter (fun e => !(e.name == filename ++ ".json"))))
    else (false, some files)

/-- `searchPosts(query)`: filter the full listing by a case-insensitive
substring match against the title, the content, or any tag. -/
def searchPosts (d : BlogDir) (query : String) : List Post :=
  (getAllPosts d).filter (fun post =>
    jsIncludes (jsToLower post.title) (jsToLower query) ||
    jsIncludes (jsToLower post.content) (jsToLower query) ||
    post.tags.any (fun tag => jsIncludes (jsToLower tag) (jsToLower query)))

/-- `getPostsByTag(tag)`: filter the full listing by case-insensitive exact
equality against any tag. -/
def getPostsByTag (d : BlogDir) (tag : String) : List Post :=
  (getAllPosts d).filter (fun post =>
    post.tags.any (fun t => jsToLower t == jsToLower tag))

/-! ## Derived predicates used to state the specification's properties -/

/-- `q` occurs as a case-insensitive contiguous substring of `s`. -/
def SubstrCI (q s : String) : Prop :=
  ∃ a b, (jsToLower s).data = a ++ (jsToLower q).data ++ b

/-- A post matches a search query: the query occurs case-insensitively in the
title, in the content, or in at least one tag. -/
def MatchesQuery (q : String) (p : Post) : Prop :=
  SubstrCI q p.title ∨ SubstrCI q p.content ∨ ∃ t ∈ p.tags, SubstrCI q t

/-- The post carries some tag equal to the given tag case-insensitively. -/
def HasTagCI (tag : String) (p : Post) : Prop :=
  ∃ t ∈ p.tags, jsToLower t = jsToLower tag

/-! ## Concrete sample posts for witnesses and counterexamples -/

/-- A sample stored post tagged "go", created at time 1. -/
def samplePost1 : StoredPost :=
  { id := "id1", title := "Alpha", content := "hello alpha", author := "Ann",
    tags := ["go"], createdAt := 1, updatedAt := 1 }

/-- A sample stored post tagged "golang", created at time 2. -/
def samplePost2 : StoredPost :=
  { id := "id2", title := "Beta", content := "say hello", author := "Bob",
    tags := ["golang"], createdAt := 2, updatedAt := 2 }

/-- A sample stored post tagged "Hello", created at time 3. -/
def samplePost3 : StoredPost :=
  { id := "id3", title := "Hello World", content := "gamma", author := "Cat",
    tags := ["Hello"], createdAt := 3, updatedAt := 3 }

theorem isPrefixOf_eq_true_iff {pat l : List Char} :
    pat.isPrefixOf l = true ↔ ∃ t, l = pat ++ t := by
  rw [List.isPrefixOf_iff_prefix]
  constructor
  · rintro ⟨t, ht⟩; exact ⟨t, ht.symm⟩
  · rintro ⟨t, ht⟩; exact ⟨t, ht.symm⟩

theorem includesList_eq_true_iff {pat l : List Char} :
    includesList pat l = true ↔ ∃ a b, l = a ++ pat ++ b := by
  induction l with
  | nil =>
    simp only [includesList, List.isEmpty_iff]
    constructor
    · intro h; exact ⟨[], [], by simp [h]⟩
    · rintro ⟨a, b, hab⟩
      rcases List.append_eq_nil.mp (List.append_eq_nil.mp hab.symm).1 with ⟨-, h2⟩
      exact h2
  | cons c rest ih =>
    simp only [includesList, Bool.or_eq_true, isPrefixOf_eq_true_iff, ih]
    constructor
    · rintro (⟨t, ht⟩ | ⟨a, b, hab⟩)
      · exact ⟨[], t, by simp [ht]⟩
      · exact ⟨c :: a, b, by simp [hab]⟩
    · rintro ⟨a, b, hab⟩
      cases a with
      | nil => exact Or.inl ⟨b, by simpa using hab⟩
      | cons a0 as =>
        rcases List.cons_eq_cons.mp (by simpa using hab) with ⟨h1, h2⟩
        exact Or.inr ⟨as, b, by simp [h2]⟩

theorem promiseAll_eq_none {α β : Type} (f : α → Option β) (l : List α) (x : α)
    (hx : x ∈ l) (hfx : f x = none) : promiseAll (l.map f) = none := by
  induction l with
  | nil => cases hx
  | cons y ys ih =>
    rcases List.mem_cons.mp hx with h | h
    · subst h
      rw [List.map_cons, hfx]
      rfl
    · rw [List.map_cons]
      cases hfy : f y with
      | none => rfl
      | some b => rw [promiseAll, ih h]; rfl

theorem promiseAll_map_eq_filterMap {α β : Type} (f : α → Option β) (l : List α)
    (h : ∀ x ∈ l, f x ≠ none) : promiseAll (l.map f) = some (l.filterMap f) := by
  induction l with
  | nil => rfl
  | cons x xs ih =>
    have hx := h x (List.mem_cons_self x xs)
    cases hfx : f x with
    | none => exact absurd hfx hx
    | some b =>
      rw [List.map_cons, hfx, promiseAll, ih (fun y hy => h y (List.mem_cons_of_mem x hy)),
        List.filterMap_cons, hfx]
      rfl

theorem find?_writeFile_of_any (files : List DirEntry) (name : String)
    (post : StoredPost) (h : files.any (fun e => e.name == name) = true) :
    (files.map (fun e => if e.name == name then ⟨name, FileData.good post⟩ else e)).find?
      (fun e => e.name == name) = some ⟨name, FileData.good post⟩ := by
  induction files with
  | nil => cases h
  | cons e rest ih =>
    rw [List.map_cons]
    by_cases he : (e.name == name) = true
    · rw [if_pos he, List.find?_cons_of_pos]
      simp
    · rw [if_neg he, List.find?_cons_of_neg]
      · apply ih
        rcases List.any_eq_true.mp h with ⟨x, hx, hpx⟩
        rcases List.mem_cons.mp hx with rfl | hx'
        · exact absurd hpx he
        · exact List.any_eq_true.mpr ⟨x, hx', hpx⟩
      · simpa using he

theorem find?_append_of_all_neg (files : List DirEntry) (name : String) (post : StoredPost)
    (hall : ∀ e ∈ files, (e.name == name) = false) :
    (files ++ [(⟨name, FileData.good post⟩ : DirEntry)]).find? (fun e => e.name == name) =
      some ⟨name, FileData.good post⟩ := by
  induction files with
  | nil =>
    rw [List.nil_append, List.find?_cons_of_pos]
    simp
  | cons e rest ih =>
    rw [List.cons_append, List.find?_cons_of_neg]
    · exact ih (fun x hx => hall x (List.mem_cons_of_mem e hx))
    · simp [hall e (List.mem_cons_self e rest)]

theorem find?_writeFile (files : List DirEntry) (name : String) (post : StoredPost) :
    (writeFile files name post).find? (fun e => e.name == name) =
      some ⟨name, FileData.good post⟩ := by
  unfold writeFile
  by_cases h : files.any (fun e => e.name == name) = true
  · rw [if_pos h]
    exact find?_writeFile_of_any files name post h
  · rw [if_neg h]
    have hall : ∀ e ∈ files, (e.name == name) = false := by
      intro e he
      by_contra hc
      exact h (List.any_eq_true.mpr ⟨e, he, by simpa using hc⟩)
    exact find?_append_of_all_neg files name post hall

theorem mem_collapseWsAux {l : List Char} {b : Bool} {c : Char}
    (h : c ∈ collapseWsAux l b) : c = '-' ∨ (c ∈ l ∧ c.isWhitespace = false) := by
  induction l generalizing b with
  | nil => cases h
  | cons d ds ih =>
    rw [collapseWsAux] at h
    by_cases hd : d.isWhitespace = true
    · rw [if_pos hd] at h
      cases b with
      | true =>
        rcases ih h with h1 | ⟨h2, h3⟩
        · exact Or.inl h1
        · exact Or.inr ⟨List.mem_cons_of_mem d h2, h3⟩
      | false =>
        rcases List.mem_cons.mp h with rfl | h'
        · exact Or.inl rfl
        · rcases ih h' with h1 | ⟨h2, h3⟩
          · exact Or.inl h1
          · exact Or.inr ⟨List.mem_cons_of_mem d h2, h3⟩
    · rw [if_neg hd] at h
      rcases List.mem_cons.mp h with rfl | h'
      · exact Or.inr ⟨List.mem_cons_self _ _, Bool.eq_false_iff.mpr hd⟩
      · rcases ih h' with h1 | ⟨h2, h3⟩
        · exact Or.inl h1
        · exact Or.inr ⟨List.mem_cons_of_mem d h2, h3⟩

theorem mem_trimList {l : List Char} {c : Char} (h : c ∈ trimList l) : c ∈ l := by
  unfold trimList at h
  have h1 := List.mem_reverse.mp h
  have h2 := (List.dropWhile_sublist _).subset h1
  have h3 := List.mem_reverse.mp h2
  exact (List.dropWhile_sublist _).subset h3

theorem slugify_chars {s : String} {c : Char} (h : c ∈ (slugify s).data) :
    c = '-' ∨ c.isAlphanum = true := by
  rcases mem_collapseWsAux h with h1 | ⟨h2, h3⟩
  · exact Or.inl h1
  · have h4 := List.mem_filter.mp (mem_trimList h2)
    rcases (by simpa using h4.2 : c.isAlphanum = true ∨ c.isWhitespace = true) with ha | hw
    · exact Or.inr ha
    · rw [hw] at h3
      cases h3

theorem slugify_no_dot {s : String} {c : Char} (h : c ∈ (slugify s).data) :
    c ≠ '.' := by
  intro hc
  subst hc
  rcases slugify_chars h with h1 | h1
  · cases h1
  · exact absurd h1 (by decide)

theorem hexChar_mem (n : Nat) : hexChar n ∈ hexCharList := by
  have hlt : n % 16 < 16 := Nat.mod_lt _ (by decide)
  unfold hexChar
  generalize hm : n % 16 = m at hlt
  interval_cases m <;> decide

theorem mem_hexDigits {k r : Nat} {c : Char} (h : c ∈ hexDigits k r) :
    c ∈ hexCharList := by
  induction k generalizing r with
  | zero => cases h
  | succ k ih =>
    rcases List.mem_cons.mp h with rfl | h'
    · exact hexChar_mem _
    · exact ih h'

theorem hexDigits_length (k r : Nat) : (hexDigits k r).length = k := by
  induction k generalizing r with
  | zero => rfl
  | succ k ih => simp [hexDigits, ih]

theorem uuid_take8_no_dot {r : Nat} {c : Char}
    (h : c ∈ (jsSubstringTo (uuidv4 r) 8).data) : c ≠ '.' := by
  intro hc
  subst hc
  have hlen : ((hexDigits 32 r).take 8).length = 8 := by
    simp [hexDigits_length]
  have hdata : (jsSubstringTo (uuidv4 r) 8).data = (hexDigits 32 r).take 8 := by
    show ((uuidv4 r).data).take 8 = (hexDigits 32 r).take 8
    show (((hexDigits 32 r).take 8 ++ _)).take 8 = (hexDigits 32 r).take 8
    exact List.take_left' hlen
  rw [hdata] at h
  have hmem := mem_hexDigits (List.mem_of_mem_take h)
  exact absurd hmem (by decide)

theorem uuidv4_ne_empty (r : Nat) : uuidv4 r ≠ "" := by
  intro h
  have hd := congrArg String.data h
  simp [uuidv4] at hd

theorem removeFirstList_append_of_no_head {pat l : List Char} {c0 : Char}
    {rest : List Char} (hpat : pat = c0 :: rest) (h : ∀ c ∈ l, c ≠ c0) :
    removeFirstList pat (l ++ pat) = l := by
  induction l with
  | nil =>
    rw [List.nil_append]
    subst hpat
    rw [removeFirstList, if_pos]
    · exact List.drop_length _
    · exact isPrefixOf_eq_true_iff.mpr ⟨[], by simp⟩
  | cons d ds ih =>
    rw [List.cons_append, removeFirstList, if_neg]
    · rw [ih (fun c hc => h c (List.mem_cons_of_mem d hc))]
    · intro hpre
      rcases isPrefixOf_eq_true_iff.mp hpre with ⟨t, ht⟩
      rw [hpat] at ht
      exact h d (List.mem_cons_self d ds) (List.cons_eq_cons.mp (by simpa using ht)).1

theorem jsReplaceFirst_generateFilename (title : String) (r2 : Nat) :
    jsReplaceFirst (generateFilename title r2) ".json"
      = slugify title ++ "-" ++ jsSubstringTo (uuidv4 r2) 8 := by
  apply String.ext
  show removeFirstList (".json".data)
      ((slugify title ++ "-" ++ jsSubstringTo (uuidv4 r2) 8 ++ ".json").data)
    = (slugify title ++ "-" ++ jsSubstringTo (uuidv4 r2) 8).data
  rw [String.data_append]
  apply @removeFirstList_append_of_no_head _ _ '.' ("json".data) rfl
  intro c hc
  rw [String.data_append, String.data_append] at hc
  rcases List.mem_append.mp hc with hc' | hc'
  · rcases List.mem_append.mp hc' with hs | hdash
    · exact slugify_no_dot hs
    · intro he
      subst he
      exact absurd hdash (by decide)
  · exact uuid_take8_no_dot hc'

theorem handle_append_json (title : String) (r2 : Nat) :
    jsReplaceFirst (generateFilename title r2) ".json" ++ ".json"
      = generateFilename title r2 := by
  rw [jsReplaceFirst_generateFilename]
  rfl

/-! ## Claim theorems -/

/-- C1 (amended): getAllPosts returns the parsed posts only when every `.json`
file in the directory is readable and well-formed; if any single `.json` file
fails to read or parse, the whole call returns the empty sequence (no partial
results), and a missing/unreadable directory also yields the empty sequence. -/
theorem getAllPosts_all_or_nothing :
    getAllPosts none = [] ∧
    (∀ files, (∃ e ∈ files, jsEndsWith e.name ".json" = true ∧ e.data = FileData.bad) →
      getAllPosts (some files) = []) ∧
    (∀ files, (∀ e ∈ files, jsEndsWith e.name ".json" = true → e.data ≠ FileData.bad) →
      List.Perm (getAllPosts (some files))
        ((files.filter (fun e => jsEndsWith e.name ".json")).filterMap readEntry)) := by
  refine ⟨rfl, ?_, ?_⟩
  · rintro files ⟨e, he, hj, hbad⟩
    have hmem : e ∈ files.filter (fun f => jsEndsWith f.name ".json") :=
      List.mem_filter.mpr ⟨he, hj⟩
    have hnone : readEntry e = none := by rw [readEntry, hbad]
    show getAllPosts (some files) = []
    simp only [getAllPosts]
    rw [promiseAll_eq_none readEntry _ e hmem hnone]
  · intro files hall
    simp only [getAllPosts]
    have h : ∀ e ∈ files.filter (fun f => jsEndsWith f.name ".json"),
        readEntry e ≠ none := by
      intro e he
      have hm := List.mem_filter.mp he
      cases hd : e.data with
      | good p => simp [readEntry, hd]
      | bad => exact absurd hd (hall e hm.1 hm.2)
    rw [promiseAll_map_eq_filterMap _ _ h]
    exact List.perm_insertionSort createdDesc _

/-- Witness for C1: a directory whose only json file is corrupt lists as empty,
and a directory of one well-formed file lists as exactly that file's post. -/
theorem getAllPosts_all_or_nothing_witness :
    getAllPosts (some [⟨"c.json", FileData.bad⟩]) = [] ∧
    List.Perm (getAllPosts (some [⟨"a.json", FileData.good samplePost1⟩]))
      ([(⟨"a.json", FileData.good samplePost1⟩ : DirEntry)].filterMap readEntry) :=
  ⟨getAllPosts_all_or_nothing.2.1 _ ⟨⟨"c.json", FileData.bad⟩, by decide, by decide, rfl⟩,
    getAllPosts_all_or_nothing.2.2 _ (by decide)⟩

/-- Counterexample for C1 as stated: the directory holds one readable,
well-formed post file `a.json` (whose parse succeeds, as the second conjunct
shows) next to one corrupt file, yet getAllPosts returns the empty list
instead of the partial result containing that post. -/
theorem getAllPosts_drops_good_file :
    getAllPosts (some [⟨"a.json", FileData.good samplePost1⟩, ⟨"b.json", FileData.bad⟩])
        = [] ∧
      readEntry ⟨"a.json", FileData.good samplePost1⟩
        = some (attachFilename samplePost1 "a") := by
  decide

/-- C4: getAllPosts is always sorted by createdAt descending, and on three
posts with createdAt 1 < 2 < 3 it returns them newest first. -/
theorem getAllPosts_sorted_desc :
    (∀ d, List.Sorted createdDesc (getAllPosts d)) ∧
    getAllPosts (some [⟨"a.json", FileData.good samplePost1⟩,
        ⟨"b.json", FileData.good samplePost2⟩, ⟨"c.json", FileData.good samplePost3⟩]) =
      [attachFilename samplePost3 "c", attachFilename samplePost2 "b",
        attachFilename samplePost1 "a"] := by
  constructor
  · intro d
    rcases d with _ | files
    · exact List.sorted_nil
    · simp only [getAllPosts]
      split
      · exact List.sorted_insertionSort createdDesc _
      · exact List.sorted_nil
  · decide

/-- C8: deletePost returns a boolean, true exactly when a file for the handle
exists (and is removed), false — with no exception — when the directory or the
file is missing. -/
theorem deletePost_true_iff (d : BlogDir) (filename : String) :
    (deletePost d filename).1 = true ↔
      ∃ files, d = some files ∧ ∃ e ∈ files, e.name = filename ++ ".json" := by
  rcases d with _ | files
  · simp [deletePost]
  · simp only [deletePost]
    by_cases h : files.any (fun e => e.name == filename ++ ".json") = true
    · rw [if_pos h]
      constructor
      · intro _
        refine ⟨files, rfl, ?_⟩
        rcases List.any_eq_true.mp h with ⟨e, he, hp⟩
        exact ⟨e, he, by simpa using hp⟩
      · intro _
        rfl
    · rw [if_neg h]
      constructor
      · intro hfalse
        exact Bool.noConfusion hfalse
      · rintro ⟨files', hfe, e, hmem, hname⟩
        injection hfe with hfe
        subst hfe
        exact absurd (List.any_eq_true.mpr ⟨e, hmem, by simpa using hname⟩) h

/-- C9: createPost throws a TypeError (it does not return a not-found or error
value) when title or content is absent, and never throws a TypeError when both
are present: the `.trim()` accesses cannot fail then. -/
theorem createPost_requires_title_content (d : BlogDir) (pd : CreateData)
    (r1 r2 now : Nat) :
    ((pd.title = none ∨ pd.content = none) →
      createPost d pd r1 r2 now = Except.error JsError.typeError) ∧
    (∀ t c, pd.title = some t → pd.content = some c →
      createPost d pd r1 r2 now ≠ Except.error JsError.typeError) := by
  obtain ⟨pt, pc, pa, ptg⟩ := pd
  constructor
  · rintro (h | h)
    · simp only at h
      subst h
      cases pc <;> rfl
    · simp only at h
      subst h
      cases pt <;> rfl
  · intro t c ht hc
    simp only at ht hc
    subst ht
    subst hc
    rcases d with _ | files
    · simp [createPost]
    · simp [createPost]

/-- Witness for C9: createPost with an absent title throws the TypeError. -/
theorem createPost_requires_title_content_witness :
    createPost none ⟨none, some "x", none, none⟩ 0 0 0
      = Except.error JsError.typeError :=
  (createPost_requires_title_content none ⟨none, some "x", none, none⟩ 0 0 0).1
    (Or.inl rfl)

/-- C5: searchPosts returns exactly those listed posts in which the query
occurs as a case-insensitive substring of the title, of the content, or of at
least one tag, and excludes every post containing none of these. -/
theorem searchPosts_mem_iff (d : BlogDir) (q : String) (p : Post) :
    p ∈ searchPosts d q ↔ p ∈ getAllPosts d ∧ MatchesQuery q p := by
  rw [searchPosts, List.mem_filter]
  refine and_congr_right (fun _ => ?_)
  simp only [Bool.or_eq_true, List.any_eq_true, jsIncludes, includesList_eq_true_iff,
    MatchesQuery, SubstrCI]
  exact or_assoc

/-- C6: getPostsByTag returns exactly those listed posts having some tag equal
to the given tag under case-insensitive exact comparison; concretely, the tag
"Go" matches the post tagged "go" and not the post tagged only "golang". -/
theorem getPostsByTag_mem_iff :
    (∀ (d : BlogDir) (tag : String) (p : Post),
      p ∈ getPostsByTag d tag ↔ p ∈ getAllPosts d ∧ HasTagCI tag p) ∧
    getPostsByTag (some [⟨"a.json", FileData.good samplePost1⟩,
        ⟨"b.json", FileData.good samplePost2⟩, ⟨"c.json", FileData.good samplePost3⟩])
      "Go" = [attachFilename samplePost1 "a"] := by
  constructor
  · intro d tag p
    rw [getPostsByTag, List.mem_filter]
    refine and_congr_right (fun _ => ?_)
    simp only [List.any_eq_true, HasTagCI, beq_iff_eq]
  · decide

/-- C3: for any create input with title and content present, createPost
succeeds (in an existing directory) and getPostByFilename on the returned
handle yields a Post equal to the created one in every field. -/
theorem createPost_then_get (files : List DirEntry) (pd : CreateData)
    (t c : String) (r1 r2 now : Nat)
    (ht : pd.title = some t) (hc : pd.content = some c) :
    ∃ p d', createPost (some files) pd r1 r2 now = Except.ok (p, d') ∧
      getPostByFilename d' p.filename = some p := by
  obtain ⟨pt, pc, pa, ptg⟩ := pd
  simp only at ht hc
  subst ht
  subst hc
  refine ⟨_, _, rfl, ?_⟩
  simp only [attachFilename, getPostByFilename, handle_append_json, find?_writeFile]

/-- Witness for C3: a concrete create followed by a lookup of its handle. -/
theorem createPost_then_get_witness :
    ∃ p d', createPost (some []) ⟨some "T", some "C", none, none⟩ 0 0 5
        = Except.ok (p, d') ∧
      getPostByFilename d' p.filename = some p :=
  createPost_then_get [] ⟨some "T", some "C", none, none⟩ "T" "C" 0 0 5 rfl rfl

/-- C7: creating a post titled "My First Post" with content "Hello there", no
author, and no tags yields author "Anonymous", empty tags, a non-empty id, and
a handle beginning with "my-first-post-". -/
theorem createPost_defaults (files : List DirEntry) (r1 r2 now : Nat) :
    ∃ p d',
      createPost (some files)
          ⟨some "My First Post", some "Hello there", none, none⟩ r1 r2 now
        = Except.ok (p, d') ∧
      p.author = "Anonymous" ∧ p.tags = [] ∧ p.id ≠ "" ∧
      ∃ rest, p.filename.data = "my-first-post-".data ++ rest := by
  refine ⟨_, _, rfl, rfl, rfl, uuidv4_ne_empty r1,
    (jsSubstringTo (uuidv4 r2) 8).data, ?_⟩
  show (jsReplaceFirst (generateFilename "My First Post" r2) ".json").data
    = "my-first-post-".data ++ (jsSubstringTo (uuidv4 r2) 8).data
  rw [jsReplaceFirst_generateFilename, String.data_append, String.data_append]
  have hs : (slugify "My First Post").data ++ "-".data = "my-first-post-".data := by
    decide
  rw [hs]

/-- C2: updating an existing post replaces each provided (truthy) field with
its trimmed value (tags with the split token list), keeps omitted fields, and
preserves id, createdAt, and the handle; updatedAt becomes the current time,
strictly after the old updatedAt whenever the clock has advanced; and a
subsequent getPostByFilename returns exactly the merged post. -/
theorem updatePost_merge (files : List DirEntry) (filename : String)
    (old : StoredPost) (data : UpdateData) (now : Nat)
    (hfind : files.find? (fun e => e.name == filename ++ ".json") =
      some ⟨filename ++ ".json", FileData.good old⟩)
    (hnow : old.updatedAt < now)
    (htitle : ∀ t, data.title = some t → t ≠ "")
    (hcontent : ∀ t, data.content = some t → t ≠ "")
    (hauthor : ∀ t, data.author = some t → t ≠ "")
    (htags : ∀ t, data.tags = some t → t ≠ "") :
    ∃ p d', updatePost (some files) filename data now = some (p, d') ∧
      (data.title = none → p.title = old.title) ∧
      (∀ t, data.title = some t → p.title = jsTrim t) ∧
      (data.content = none → p.content = old.content) ∧
      (∀ t, data.content = some t → p.content = jsTrim t) ∧
      (data.author = none → p.author = old.author) ∧
      (∀ t, data.author = some t → p.author = jsTrim t) ∧
      (data.tags = none → p.tags = old.tags) ∧
      (∀ t, data.tags = some t → p.tags = splitTags t) ∧
      p.id = old.id ∧ p.createdAt = old.createdAt ∧ p.filename = filename ∧
      old.updatedAt < p.updatedAt ∧
      getPostByFilename d' filename = some p := by
  have hup : updatePost (some files) filename data now =
      some (attachFilename
        { id := old.id
          title :=
            match data.title with
            | some t => if t != "" then jsTrim t else old.title
            | none => old.title
          content :=
            match data.content with
            | some t => if t != "" then jsTrim t else old.content
            | none => old.content
          author :=
            match data.author with
            | some t => if t != "" then jsTrim t else old.author
            | none => old.author
          tags :=
            match data.tags with
            | some t => if t != "" then splitTags t else old.tags
            | none => old.tags
          createdAt := old.createdAt
          updatedAt := now } filename,
        some (writeFile files (filename ++ ".json")
          { id := old.id
            title :=
              match data.title with
              | some t => if t != "" then jsTrim t else old.title
              | none => old.title
            content :=
              match data.content with
              | some t => if t != "" then jsTrim t else old.content
              | none => old.content
            author :=
              match data.author with
              | some t => if t != "" then jsTrim t else old.author
              | none => old.author
            tags :=
              match data.tags with
              | some t => if t != "" then splitTags t else old.tags
              | none => old.tags
            createdAt := old.createdAt
            updatedAt := now })) := by
    simp only [updatePost, hfind]
  refine ⟨_, _, hup, ?_, ?_, ?_, ?_, ?_, ?_, ?_, ?_, rfl, rfl, rfl, hnow, ?_⟩
  · intro h
    simp [attachFilename, h]
  · intro t ht
    have hne : (t != "") = true := by simpa using htitle t ht
    simp [attachFilename, ht, hne]
  · intro h
    simp [attachFilename, h]
  · intro t ht
    have hne : (t != "") = true := by simpa using hcontent t ht
    simp [attachFilename, ht, hne]
  · intro h
    simp [attachFilename, h]
  · intro t ht
    have hne : (t != "") = true := by simpa using hauthor t ht
    simp [attachFilename, ht, hne]
  · intro h
    simp [attachFilename, h]
  · intro t ht
    have hne : (t != "") = true := by simpa using htags t ht
    simp [attachFilename, ht, hne]
  · simp only [getPostByFilename, find?_writeFile]

/-- Witness for C2: update the title of a concretely stored post one tick
later and read it back. -/
theorem updatePost_merge_witness :
    ∃ p d', updatePost (some [⟨"a.json", FileData.good samplePost1⟩]) "a"
        ⟨some "New", none, none, none⟩ 2 = some (p, d') ∧
      ((⟨some "New", none, none, none⟩ : UpdateData).title = none →
        p.title = samplePost1.title) ∧
      (∀ t, (⟨some "New", none, none, none⟩ : UpdateData).title = some t →
        p.title = jsTrim t) ∧
      ((⟨some "New", none, none, none⟩ : UpdateData).content = none →
        p.content = samplePost1.content) ∧
      (∀ t, (⟨some "New", none, none, none⟩ : UpdateData).content = some t →
        p.content = jsTrim t) ∧
      ((⟨some "New", none, none, none⟩ : UpdateData).author = none →
        p.author = samplePost1.author) ∧
      (∀ t, (⟨some "New", none, none, none⟩ : UpdateData).author = some t →
        p.author = jsTrim t) ∧
      ((⟨some "New", none, none, none⟩ : UpdateData).tags = none →
        p.tags = samplePost1.tags) ∧
      (∀ t, (⟨some "New", none, none, none⟩ : UpdateData).tags = some t →
        p.tags = splitTags t) ∧
      p.id = samplePost1.id ∧ p.createdAt = samplePost1.createdAt ∧
      p.filename = "a" ∧ samplePost1.updatedAt < p.updatedAt ∧
      getPostByFilename d' "a" = some p :=
  updatePost_merge [⟨"a.json", FileData.good samplePost1⟩] "a" samplePost1
    ⟨some "New", none, none, none⟩ 2 (by decide) (by decide)
    (fun t ht => by cases ht; decide) (fun t ht => by cases ht)
    (fun t ht => by cases ht) (fun t ht => by cases ht)

/-- C10 (amended): updating with the empty string provided for title, content,
author, or tags leaves that field at its previous value (JavaScript truthiness
treats the empty string like an omitted field). The further claim that the tag
sequence can never be cleared through update is false: a non-empty tags string
whose comma-separated tokens all trim to empty, such as ",", clears it. -/
theorem updatePost_empty_string_keeps (files : List DirEntry) (filename : String)
    (old : StoredPost) (data : UpdateData) (now : Nat)
    (hfind : files.find? (fun e => e.name == filename ++ ".json") =
      some ⟨filename ++ ".json", FileData.good old⟩) :
    ∃ p d', updatePost (some files) filename data now = some (p, d') ∧
      (data.title = some "" → p.title = old.title) ∧
      (data.content = some "" → p.content = old.content) ∧
      (data.author = some "" → p.author = old.author) ∧
      (data.tags = some "" → p.tags = old.tags) := by
  have hup : updatePost (some files) filename data now =
      some (attachFilename
        { id := old.id
          title :=
            match data.title with
            | some t => if t != "" then jsTrim t else old.title
            | none => old.title
          content :=
            match data.content with
            | some t => if t != "" then jsTrim t else old.content
            | none => old.content
          author :=
            match data.author with
            | some t => if t != "" then jsTrim t else old.author
            | none => old.author
          tags :=
            match data.tags with
            | some t => if t != "" then splitTags t else old.tags
            | none => old.tags
          createdAt := old.createdAt
          updatedAt := now } filename,
        some (writeFile files (filename ++ ".json")
          { id := old.id
            title :=
              match data.title with
              | some t => if t != "" then jsTrim t else old.title
              | none => old.title
            content :=
              match data.content with
              | some t => if t != "" then jsTrim t else old.content
              | none => old.content
            author :=
              match data.author with
              | some t => if t != "" then jsTrim t else old.author
              | none => old.author
            tags :=
              match data.tags with
              | some t => if t != "" then splitTags t else old.tags
              | none => old.tags
            createdAt := old.createdAt
            updatedAt := now })) := by
    simp only [updatePost, hfind]
  refine ⟨_, _, hup, ?_, ?_, ?_, ?_⟩
  · intro h
    simp [attachFilename, h]
  · intro h
    simp [attachFilename, h]
  · intro h
    simp [attachFilename, h]
  · intro h
    simp [attachFilename, h]

/-- Witness for C10: an update providing the empty string for all four fields
changes none of them. -/
theorem updatePost_empty_string_keeps_witness :
    ∃ p d', updatePost (some [⟨"a.json", FileData.good samplePost1⟩]) "a"
        ⟨some "", some "", some "", some ""⟩ 9 = some (p, d') ∧
      ((⟨some "", some "", some "", some ""⟩ : UpdateData).title = some "" →
        p.title = samplePost1.title) ∧
      ((⟨some "", some "", some "", some ""⟩ : UpdateData).content = some "" →
        p.content = samplePost1.content) ∧
      ((⟨some "", some "", some "", some ""⟩ : UpdateData).author = some "" →
        p.author = samplePost1.author) ∧
      ((⟨some "", some "", some "", some ""⟩ : UpdateData).tags = some "" →
        p.tags = samplePost1.tags) :=
  updatePost_empty_string_keeps [⟨"a.json", FileData.good samplePost1⟩] "a"
    samplePost1 ⟨some "", some "", some "", some ""⟩ 9 (by decide)

/-- Counterexample for C10 as stated: the stored post's tags are ["go"]
(non-empty), yet the update provides the truthy tags string "," and the
resulting post's tag sequence is cleared to []. -/
theorem updatePost_clears_tags :
    (updatePost (some [⟨"a.json", FileData.good samplePost1⟩]) "a"
        ⟨none, none, none, some ","⟩ 5).map (fun r => r.1.tags) = some [] ∧
      samplePost1.tags = ["go"] := by
  decide
